import Mathlib

/-!
Verification development for the static-analysis module
`src/ploomber/static_analysis/imports.py` of the ploomber repository.

The module analyzes a Python script: it resolves each imported dotted path
to a filesystem origin (`get_origin`), filters origins by project membership
(`parent_or_child`), scans the script for attribute accesses rooted at the
bound name of the import (`extract_attribute_access`), and extracts the
source of the top-level definitions that were referenced (`extract_symbol`),
assembling a mapping from dotted paths to optional source text
(`get_source_from_import`, `extract_from_script`).

The embedding models the external collaborators at their interface:
the parso concrete syntax tree is modelled by `PTree` (leaves carry their
token type and exact reconstructed code, inner nodes their children; the
code of a node is the concatenation of the codes of its children, and the
leaf-by-leaf traversal with parent linkage is `PTree.leaves`), a parsed
module is its list of top-level definitions `PyDef` in document order
(`iter_funcdefs` and `iter_classdefs` are the kind filters over it),
filesystem paths are component lists `PyPath`, and Python dictionaries are
association lists manipulated through `dinsert` (insertion order kept,
last value wins). Python exceptions are modelled by `Option`: a raised
error is `none`. Python string operations used by the source are
reimplemented on the character lists of Lean strings.
-/

/-- Python str.strip for the whitespace used in the analyzed sources:
drops whitespace characters from both ends of a string. -/
def pyStrip (s : String) : String :=
  String.mk (((s.data.dropWhile Char.isWhitespace).reverse.dropWhile Char.isWhitespace).reverse)

/-- Python str.startswith: the second string is a prefix of the first. -/
def pyStartswith (s p : String) : Bool :=
  p.data.isPrefixOf s.data

/-- Helper for `splitDots`: accumulates the current segment (reversed). -/
def splitDotsAux : List Char → List Char → List String
  | [], acc => [String.mk acc.reverse]
  | c :: cs, acc =>
    if c = '.' then String.mk acc.reverse :: splitDotsAux cs [] else splitDotsAux cs (c :: acc)

/-- Python str.split with separator a dot: always returns at least one
segment, and empty segments are kept. -/
def splitDots (s : String) : List String :=
  splitDotsAux s.data []

/-- Python str.join with separator a dot. -/
def joinDots : List String → String
  | [] => ""
  | [s] => s
  | s :: s2 :: rest => s ++ "." ++ joinDots (s2 :: rest)

/-- Python str.replace of a dot by the empty string: removes every dot. -/
def removeDots (s : String) : String :=
  String.mk (s.data.filter (fun c => c ≠ '.'))

/-- Test used by the scanner on a token text: Python `token[0] == "."`.
On the empty string Python would raise; the model returns false, which no
claim depends on (parso token codes at those positions are nonempty). -/
def firstIsDot (s : String) : Bool :=
  match s.data with
  | [] => false
  | c :: _ => c = '.'

mutual
/-- Model of a parso concrete-syntax-tree node: a leaf carries its token
type (name, operator, keyword, number, newline, endmarker) and its exact
reconstructed code, prefix included; an inner node carries its children. -/
inductive PTree where
  | leaf (ltype code : String)
  | node (children : PTreeList)
inductive PTreeList where
  | nil
  | cons (head : PTree) (tail : PTreeList)
end

/-- Builds a `PTreeList` from a list, for readable concrete trees. -/
def PTreeList.ofList : List PTree → PTreeList
  | [] => .nil
  | t :: ts => .cons t (PTreeList.ofList ts)

/-- Inner node built from a plain list of children. -/
def pnode (cs : List PTree) : PTree :=
  .node (PTreeList.ofList cs)

mutual
/-- parso `node.get_code()`: the exact source text of a node, which for an
inner node is the concatenation of the codes of its children. -/
def PTree.code : PTree → String
  | .leaf _ c => c
  | .node cs => PTreeList.codeAll cs
/-- Concatenated code of a list of siblings. -/
def PTreeList.codeAll : PTreeList → String
  | .nil => ""
  | .cons t ts => t.code ++ ts.codeAll
end

/-- Codes of the children of a node, one string per child: models
`[c.get_code() for c in node.children]`. -/
def PTreeList.codes : PTreeList → List String
  | .nil => []
  | .cons t ts => t.code :: ts.codes

/-- Children codes of a node; a leaf has none. -/
def PTree.childCodes : PTree → List String
  | .leaf _ _ => []
  | .node cs => cs.codes

mutual
/-- Document-order leaf traversal with parent linkage: the pairs
(leaf type, parent node) visited by the `get_first_leaf` and
`get_next_leaf` loop of the source. The parso root is always a node,
so every visited leaf has a parent. -/
def PTree.leaves : PTree → List (String × PTree)
  | .leaf _ _ => []
  | .node cs => PTreeList.leavesUnder (.node cs) cs
/-- Leaves of the members of a sibling list, whose direct parent is the
given node. -/
def PTreeList.leavesUnder : PTree → PTreeList → List (String × PTree)
  | _, .nil => []
  | parent, .cons t ts =>
    (match t with
     | .leaf lt _ => [(lt, parent)]
     | .node _ => t.leaves) ++ PTreeList.leavesUnder parent ts
end

/-- Body of the scanning loop of `extract_attribute_access`, for one leaf
with its parent: mirrors lines 184 to 204 of the source. Returns the
suffix to append, if any. -/
def scanStep (n_tokens : Nat) (name : String) (ltype : String) (parent : PTree) : Option String :=
  let matched_dotted_path := pyStrip parent.code
  if ltype != "newline" && ltype != "endmarker" && pyStartswith matched_dotted_path name then
    let children_code := parent.childCodes
    let last := joinDots (((children_code.drop n_tokens).filter firstIsDot).map removeDots)
    if last != "" then some last else none
  else none

/-- `extract_attribute_access(code, name)` of the source: walks every leaf
of the parsed code in document order and collects the attribute suffixes
accessed on `name`. -/
def extract_attribute_access (code : PTree) (name : String) : List String :=
  let n_tokens := (splitDots name).length
  code.leaves.foldl
    (fun attributes p =>
      match scanStep n_tokens name p.1 p.2 with
      | some last => attributes ++ [last]
      | none => attributes) []

/-- Name leaf. -/
def lname (c : String) : PTree := .leaf "name" c
/-- Operator leaf. -/
def lop (c : String) : PTree := .leaf "operator" c
/-- Keyword leaf. -/
def lkw (c : String) : PTree := .leaf "keyword" c
/-- Number leaf. -/
def lnum (c : String) : PTree := .leaf "number" c
/-- Newline pseudo-token. -/
def lnewline : PTree := .leaf "newline" "\n"
/-- End-marker pseudo-token, empty code. -/
def lend : PTree := .leaf "endmarker" ""
/-- Attribute trailer node, as parso parses `.n`. -/
def trDot (n : String) : PTree := pnode [lop ".", lname n]

/-- Parse tree of the script `mod.sub.fn(1)` (with a leading blank line,
whose newline becomes the prefix of the first token). -/
def tFnCall : PTree :=
  pnode [pnode [pnode [lname "\nmod", trDot "sub", trDot "fn",
                       pnode [lop "(", lnum "1", lop ")"]], lnewline], lend]

/-- Parse tree of the script `mod.sub.x[0]`. -/
def tGetItem : PTree :=
  pnode [pnode [pnode [lname "\nmod", trDot "sub", trDot "x",
                       pnode [lop "[", lnum "0", lop "]"]], lnewline], lend]

/-- Parse tree of the script `mod.sub.a.b`. -/
def tChain : PTree :=
  pnode [pnode [pnode [lname "\nmod", trDot "sub", trDot "a", trDot "b"], lnewline], lend]

/-- Parse tree of the script `mod.sub(1)`: a call on the bound name with
no attribute segment after it. -/
def tCallOnly : PTree :=
  pnode [pnode [pnode [lname "\nmod", trDot "sub", pnode [lop "(", lnum "1", lop ")"]], lnewline], lend]

/-- Parse tree of the script `mod.sub[0]`: a subscript on the bound name
with no attribute segment after it. -/
def tSubOnly : PTree :=
  pnode [pnode [pnode [lname "\nmod", trDot "sub", pnode [lop "[", lnum "0", lop "]"]], lnewline], lend]

/-- Parse tree of the two-line script with the same access twice:
`functions.a()` on the first line and again on the second line. -/
def tDup : PTree :=
  pnode [pnode [pnode [lname "functions", trDot "a", pnode [lop "(", lop ")"]], lnewline],
         pnode [pnode [lname "\nfunctions", trDot "a", pnode [lop "(", lop ")"]], lnewline],
         lend]

/-- Parse tree of the script `mod.nested.attribute`: a compound attribute
chain on the bound name `mod`. -/
def tNested : PTree :=
  pnode [pnode [pnode [lname "\nmod", trDot "nested", trDot "attribute"], lnewline], lend]

/-- Kind of a top-level definition in a parsed module. -/
inductive DefKind where
  | func
  | cls
deriving DecidableEq

/-- A top-level function or class definition of a parsed module, with its
name and its exact source text as parso reconstructs it (surrounding
whitespace included). -/
structure PyDef where
  kind : DefKind
  name : String
  code : String
deriving DecidableEq

/-- True when the definition is a function definition. -/
def isFunc (d : PyDef) : Bool :=
  match d.kind with
  | .func => true
  | .cls => false

/-- True when the definition is a class definition. -/
def isCls (d : PyDef) : Bool :=
  match d.kind with
  | .func => false
  | .cls => true

/-- The loop of `extract_symbol`: first definition in the list whose name
matches, with its code stripped; `none` when the loop falls through. -/
def findSymbol : List PyDef → String → Option String
  | [], _ => none
  | node :: rest, name =>
    if node.name = name then some (pyStrip node.code) else findSymbol rest name

/-- `extract_symbol(code, name)` of the source: iterates
`chain(m.iter_funcdefs(), m.iter_classdefs())`, that is all top-level
function definitions in document order followed by all top-level class
definitions in document order, returning the stripped code of the first
whose name matches. -/
def extract_symbol (defs : List PyDef) (name : String) : Option String :=
  findSymbol (defs.filter isFunc ++ defs.filter isCls) name

/-- Variant following the words of the specification instead of the
source: the first top-level definition in document order, functions and
classes interleaved as they appear in the text. -/
def extract_symbol_spec (defs : List PyDef) (name : String) : Option String :=
  findSymbol defs name

/-- A resolved absolute filesystem path, as its list of components. -/
abbrev PyPath := List String

/-- pathlib `p.relative_to(q)` on resolved absolute paths: succeeds with
the remaining components exactly when the components of `q` are a prefix
of the components of `p`; a raised ValueError is `none`. -/
def relative_to (p q : PyPath) : Option PyPath :=
  if q.isPrefixOf p then some (p.drop q.length) else none

/-- `parent_or_child(path_to_script, origin)` of the source: true when
either path is contained in the other, computed through the two
`relative_to` attempts exactly as the source does. -/
def parent_or_child (path_to_script origin : PyPath) : Bool :=
  let child := (relative_to origin path_to_script).isSome
  if child then true else (relative_to path_to_script origin).isSome

/-- `get_origin(dotted_path)` of the source, over an abstract resolution
service `find` standing for `importlib.util.find_spec` composed with
reading the spec origin; `none` models a raised ModuleNotFoundError. Only
the failure of the first lookup is caught; a failure of the parent lookup
propagates, modelled by the final `none`. -/
def get_origin (find : String → Option PyPath) (dotted_path : String) : Option (PyPath × Bool) :=
  match find dotted_path with
  | some origin => some (origin, true)
  | none =>
    match find (joinDots (splitDots dotted_path).dropLast) with
    | some origin => some (origin, false)
    | none => none

/-- External services consumed by `get_source_from_import`: the module
resolution service and the read-and-parse of an origin file, which yields
the list of top-level definitions of the module at that path. -/
structure Env where
  find : String → Option PyPath
  read : PyPath → List PyDef

/-- Python dict insertion on an association list: an existing key keeps
its position and receives the new value, a new key is appended. -/
def dinsert {α : Type} : List (String × α) → String → α → List (String × α)
  | [], k, v => [(k, v)]
  | p :: rest, k, v => if p.1 = k then (k, v) :: rest else p :: dinsert rest k v

/-- Python dict lookup on an association list. -/
def dlookup {α : Type} : List (String × α) → String → Option α
  | [], _ => none
  | p :: rest, k => if p.1 = k then some p.2 else dlookup rest k

/-- Python `{**old, **new}`: every pair of `new` inserted into `old` in
order, later values winning. -/
def dmerge {α : Type} (old new : List (String × α)) : List (String × α) :=
  new.foldl (fun d p => dinsert d p.1 p.2) old

/-- `get_source_from_import(dotted_path, source, name_defined, base)` of
the source: resolves the origin, filters by project membership, and for a
module origin builds one entry per attribute suffix found by the scanner,
keyed by the dotted path extended with the whole suffix and valued by
`extract_symbol` applied to that same whole suffix; for an attribute
origin, one entry for the dotted path itself, extracting its last
segment. `none` models a propagated resolution error. -/
def get_source_from_import (env : Env) (dotted_path : String) (source : PTree)
    (name_defined : String) (base : PyPath) : Option (List (String × Option String)) :=
  match get_origin env.find dotted_path with
  | none => none
  | some (origin, is_module) =>
    if !(parent_or_child base origin) then some []
    else if is_module then
      some ((extract_attribute_access source name_defined).foldl
        (fun d attr => dinsert d (dotted_path ++ "." ++ attr) (extract_symbol (env.read origin) attr)) [])
    else
      some [(dotted_path, extract_symbol (env.read origin) ((splitDots dotted_path).getLastD ""))]

/-- Variant following the words of the specification instead of the
source: in the module branch the symbol extractor receives only the last
dotted segment of each suffix, not the whole suffix string. -/
def get_source_from_import_claimed (env : Env) (dotted_path : String) (source : PTree)
    (name_defined : String) (base : PyPath) : Option (List (String × Option String)) :=
  match get_origin env.find dotted_path with
  | none => none
  | some (origin, is_module) =>
    if !(parent_or_child base origin) then some []
    else if is_module then
      some ((extract_attribute_access source name_defined).foldl
        (fun d attr => dinsert d (dotted_path ++ "." ++ attr)
          (extract_symbol (env.read origin) ((splitDots attr).getLastD ""))) [])
    else
      some [(dotted_path, extract_symbol (env.read origin) ((splitDots dotted_path).getLastD ""))]

/-- One top-level import statement as parso presents it to the loop of
`extract_from_script`: the node type, the types of the children of the
node, and the zipped pairs of `get_paths` (segment values) and
`get_defined_names` (the value of the defined name). -/
structure ImportInfo where
  itype : String
  child_types : List String
  entries : List (List String × String)

/-- `extract_from_script` of the source, over the parsed script: folds
every (path, defined name) pair of every top-level import into the
accumulated dictionary; a plain `import a.b` without alias binds the full
dotted path, every other form binds the parso defined name. A propagated
resolution error is `none`. -/
def extract_from_script (env : Env) (tree : PTree) (imports : List ImportInfo)
    (base : PyPath) : Option (List (String × Option String)) :=
  imports.foldl
    (fun acc import_ =>
      import_.entries.foldl
        (fun acc2 pe =>
          match acc2 with
          | none => none
          | some specs =>
            let name := joinDots pe.1
            let name_defined :=
              if import_.itype = "import_name" && !(import_.child_types.contains "dotted_as_name")
              then name else pe.2
            match get_source_from_import env name tree name_defined base with
            | none => none
            | some result => some (dmerge specs result))
        acc)
    (some [])

/-- An entry of the modelled filesystem: a file with a name, or a
directory with a name and its entries. -/
inductive FSEntry where
  | file (name : String)
  | dir (name : String) (entries : List FSEntry)

/-- True when a file with the given name is among the entries. -/
def findFile : List FSEntry → String → Bool
  | [], _ => false
  | .file m :: rest, n => m == n || findFile rest n
  | .dir _ _ :: rest, n => findFile rest n

/-- The entries of the directory with the given name, when present. -/
def findDir : List FSEntry → String → Option (List FSEntry)
  | [], _ => none
  | .file _ :: rest, n => findDir rest n
  | .dir m es :: rest, n => if m = n then some es else findDir rest n

/-- Walks a chain of nested directories by name, returning the entries of
the last one: the directory chain a dotted path traverses. -/
def resolveDirs (es : List FSEntry) : List String → Option (List FSEntry)
  | [] => some es
  | s :: rest =>
    match findDir es s with
    | some sub => resolveDirs sub rest
    | none => none

/-- Modelled from the spec: the module-search-path resolution service
(importlib.util.find_spec composed with reading the spec origin), which is
outside this repository. Per sections 4.1 and 6 of the spec it returns,
for a dotted path, the absolute file that defines the module, the
initializer file for a regular package, or the package directory itself
for a namespace package (a package directory with no initializer file),
and a not-found signal otherwise. Intermediate segments traverse package
directories whether or not they hold an initializer file. -/
def resolve_segments (es : List FSEntry) (pre : PyPath) : List String → Option PyPath
  | [] => none
  | [last] =>
    match findDir es last with
    | some sub =>
      if findFile sub "__init__.py" then some (pre ++ [last, "__init__.py"])
      else some (pre ++ [last])
    | none =>
      if findFile es (last ++ ".py") then some (pre ++ [last ++ ".py"]) else none
  | seg :: s2 :: rest =>
    match findDir es seg with
    | some sub => resolve_segments sub (pre ++ [seg]) (s2 :: rest)
    | none => none

/-- Modelled from the spec: the resolution service over the filesystem
rooted (for dotted-path lookups) at the entries `es`, mounted at the
absolute path `pre`. -/
def find_spec (es : List FSEntry) (pre : PyPath) (dotted : String) : Option PyPath :=
  resolve_segments es pre (splitDots dotted)

/-- Filesystem of the missing-init-in-submodule scenario of the tests:
`package/__init__.py` exists, `package/sub/` holds `functions.py` but no
initializer file. -/
def fs1 : List FSEntry :=
  [.dir "package" [.file "__init__.py", .dir "sub" [.file "functions.py"]]]

/-- Filesystem of the missing-init-in-module scenario of the tests:
`package/` holds `functions.py` and no initializer file at all. -/
def fs2 : List FSEntry :=
  [.dir "package" [.file "functions.py"]]

/-- Mount point of the modelled filesystems. -/
def tmpBase : PyPath := ["", "tmp"]

/-- Origin path of the local module `another_module`. -/
def amPath : PyPath := ["", "proj", "another_module.py"]

/-- Top-level definitions of `another_module`: two functions, with the
surrounding whitespace parso attaches to their reconstructed code. -/
def amDefs : List PyDef :=
  [⟨.func, "a", "\ndef a():\n    pass\n"⟩, ⟨.func, "b", "\n\ndef b():\n    pass\n"⟩]

/-- Environment in which `another_module` is a local module. -/
def envA : Env :=
  ⟨fun s => if s = "another_module" then some amPath else none,
   fun p => if p = amPath then amDefs else []⟩

/-- Base directory of the analyzed scripts. -/
def baseA : PyPath := ["", "proj"]

/-- Origin path of the local module `mod`. -/
def modPath : PyPath := ["", "proj", "mod.py"]

/-- Top-level definitions of `mod`: a single function named `attribute`. -/
def modDefs : List PyDef :=
  [⟨.func, "attribute", "\ndef attribute():\n    pass\n"⟩]

/-- Environment in which `mod` is a local module defining `attribute`. -/
def envM : Env :=
  ⟨fun s => if s = "mod" then some modPath else none,
   fun p => if p = modPath then modDefs else []⟩

/-- Origin path of a third-party module, outside the project. -/
def numpyPath : PyPath := ["", "usr", "numpy.py"]

/-- Environment in which `numpy` resolves outside the project. -/
def envN : Env :=
  ⟨fun s => if s = "numpy" then some numpyPath else none, fun _ => []⟩

/-- A top-level class named `a`. -/
def clsA : PyDef := ⟨.cls, "a", "\nclass a:\n    pass\n"⟩

/-- A top-level function named `a`. -/
def funcA : PyDef := ⟨.func, "a", "\ndef a():\n    pass\n"⟩

/-- A module whose text defines class `a` first, then function `a`. -/
def defs0 : List PyDef := [clsA, funcA]

/-- Parse tree of the script with the aliased import:
`import another_module as some_alias` then `some_alias.a`. -/
def tAliased : PTree :=
  pnode [pnode [pnode [lkw "\nimport",
                       pnode [lname " another_module", lkw " as", lname " some_alias"]], lnewline],
         pnode [pnode [lname "\nsome_alias", trDot "a"], lnewline],
         lend]

/-- Parse tree of the script with the plain import:
`import another_module` then `another_module.a`. -/
def tPlain : PTree :=
  pnode [pnode [pnode [lkw "\nimport", lname " another_module"], lnewline],
         pnode [pnode [lname "\nanother_module", trDot "a"], lnewline],
         lend]

/-- The aliased import statement, as parso reports it: an import-name node
with a dotted-as-name child, importing `another_module` and defining
`some_alias`. -/
def impAliased : ImportInfo :=
  ⟨"import_name", ["keyword", "dotted_as_name"], [(["another_module"], "some_alias")]⟩

/-- The plain import statement: an import-name node with a name child,
importing and binding `another_module`. -/
def impPlain : ImportInfo :=
  ⟨"import_name", ["keyword", "name"], [(["another_module"], "another_module")]⟩

/-- Resolution service that knows the module `pkg.mod`. -/
def findA : String → Option PyPath :=
  fun s => if s = "pkg.mod" then some ["", "lib", "pkg", "mod.py"] else none

/-- Resolution service that knows only the module `pkg`, so that a dotted
path below it resolves through the parent branch. -/
def findB : String → Option PyPath :=
  fun s => if s = "pkg" then some ["", "lib", "pkg", "__init__.py"] else none

/-- Resolution service that knows no module at all. -/
def findNone : String → Option PyPath := fun _ => none

/-- Folding the collecting loop of the scanner equals a filterMap: the
accumulator only ever grows at the end, one entry per match. -/
theorem foldl_collect_eq_filterMap {β : Type} (f : β → Option String) :
    ∀ (l : List β) (acc : List String),
      l.foldl (fun attributes p =>
        match f p with
        | some last => attributes ++ [last]
        | none => attributes) acc = acc ++ l.filterMap f := by
  intro l
  induction l with
  | nil => intro acc; simp
  | cons x xs ih =>
    intro acc
    cases h : f x <;> simp [List.foldl_cons, h, ih]

/-- A suffix produced by one scanner step is never the empty string. -/
theorem scanStep_ne_empty (n : Nat) (name ltype : String) (parent : PTree) (s : String)
    (h : scanStep n name ltype parent = some s) : s ≠ "" := by
  unfold scanStep at h
  by_cases h1 : (ltype != "newline" && ltype != "endmarker" &&
      pyStartswith (pyStrip parent.code) name) = true
  · rw [if_pos h1] at h
    by_cases h2 : (joinDots ((List.filter firstIsDot
        (List.drop n parent.childCodes)).map removeDots) != "") = true
    · rw [if_pos h2] at h
      cases h
      simpa using h2
    · rw [if_neg h2] at h
      cases h
  · rw [if_neg h1] at h
    cases h

/-- Looking up the key just inserted yields the value just inserted. -/
theorem dlookup_dinsert_self {α : Type} (d : List (String × α)) (k : String) (v : α) :
    dlookup (dinsert d k v) k = some v := by
  induction d with
  | nil => simp [dinsert, dlookup]
  | cons p rest ih =>
    by_cases h : p.1 = k <;> simp [dinsert, dlookup, h, ih]

/-- Inserting under one key does not change the lookup of another key. -/
theorem dlookup_dinsert_ne {α : Type} (d : List (String × α)) (k k' : String) (v : α)
    (h : k' ≠ k) : dlookup (dinsert d k v) k' = dlookup d k' := by
  have hkk : ¬(k = k') := fun hh => h hh.symm
  induction d with
  | nil => simp [dinsert, dlookup, hkk]
  | cons p rest ih =>
    by_cases h2 : p.1 = k
    · simp [dinsert, dlookup, h2, hkk, h]
    · by_cases h3 : p.1 = k' <;> simp [dinsert, dlookup, h2, h3, h, hkk, ih]

/-- Lookup after folding a family of insertions whose value is a function
of the inserted element, for an injective key family: once the element has
been inserted (or was already correctly present), the final lookup yields
its value. -/
theorem dlookup_foldl_dinsert {α : Type} (key : String → String) (F : String → α)
    (hinj : ∀ a b, key a = key b → a = b) :
    ∀ (l : List String) (d : List (String × α)) (attr : String),
      (dlookup d (key attr) = some (F attr) ∨ attr ∈ l) →
      dlookup (l.foldl (fun d a => dinsert d (key a) (F a)) d) (key attr) = some (F attr) := by
  intro l
  induction l with
  | nil =>
    intro d attr h
    rcases h with h | h
    · simpa using h
    · cases h
  | cons a rest ih =>
    intro d attr h
    rw [List.foldl_cons]
    apply ih
    by_cases haa : a = attr
    · subst haa
      exact Or.inl (dlookup_dinsert_self d (key a) (F a))
    · have hk : key attr ≠ key a := fun hk => haa (hinj attr a hk).symm
      rcases h with h | h
      · exact Or.inl ((dlookup_dinsert_ne d (key a) (key attr) (F a) hk).trans h)
      · rcases List.mem_cons.mp h with h | h
        · exact absurd h.symm haa
        · exact Or.inr h

/-- Appending to equal strings on the left keeps the tails equal. -/
theorem string_append_left_cancel (s a b : String) (h : s ++ a = s ++ b) : a = b := by
  have h3 : s.data ++ a.data = s.data ++ b.data := congrArg String.data h
  have h4 : a.data = b.data := List.append_cancel_left h3
  cases a; cases b; exact congrArg String.mk h4

/-- The key family used by the module branch of `get_source_from_import`
is injective in the suffix. -/
theorem dotkey_inj (dp : String) : ∀ a b : String, dp ++ "." ++ a = dp ++ "." ++ b → a = b :=
  fun a b h => string_append_left_cancel (dp ++ ".") a b h

/-- A symbol search over a list with no matching name falls through. -/
theorem findSymbol_none (l : List PyDef) (n : String) (h : ∀ d ∈ l, d.name ≠ n) :
    findSymbol l n = none := by
  induction l with
  | nil => rfl
  | cons d rest ih =>
    have hd : d.name ≠ n := h d (List.mem_cons_self d rest)
    simp only [findSymbol, if_neg hd]
    exact ih (fun d' hm => h d' (List.mem_cons_of_mem d hm))

/-- A symbol search over an appended list continues into the second part
when the first part has no matching name. -/
theorem findSymbol_append_none (a b : List PyDef) (n : String)
    (h : ∀ d ∈ a, d.name ≠ n) : findSymbol (a ++ b) n = findSymbol b n := by
  induction a with
  | nil => rfl
  | cons d rest ih =>
    have hd : d.name ≠ n := h d (List.mem_cons_self d rest)
    simp only [List.cons_append, findSymbol, if_neg hd]
    exact ih (fun d' hm => h d' (List.mem_cons_of_mem d hm))

/-- A symbol search finds the first match: everything before it has a
different name. -/
theorem findSymbol_first (l₁ l₂ : List PyDef) (d : PyDef) (n : String)
    (hd : d.name = n) (h : ∀ d' ∈ l₁, d'.name ≠ n) :
    findSymbol (l₁ ++ d :: l₂) n = some (pyStrip d.code) := by
  rw [findSymbol_append_none l₁ (d :: l₂) n h]
  simp [findSymbol, hd]

/-- Boolean function-definition test versus the kind field. -/
theorem isFunc_iff (d : PyDef) : isFunc d = true ↔ d.kind = DefKind.func := by
  cases h : d.kind <;> simp [isFunc, h]

/-- Boolean class-definition test versus the kind field. -/
theorem isCls_iff (d : PyDef) : isCls d = true ↔ d.kind = DefKind.cls := by
  cases h : d.kind <;> simp [isCls, h]

/-- The membership filter is the symmetric disjunction of the two Boolean
prefix tests. -/
theorem parent_or_child_eq (p o : PyPath) :
    parent_or_child p o = (p.isPrefixOf o || o.isPrefixOf p) := by
  simp only [parent_or_child, relative_to]
  cases h1 : List.isPrefixOf p o <;> cases h2 : List.isPrefixOf o p <;> simp [h1, h2]

/-- The scanner is the in-document-order filterMap of the per-leaf step
over the leaf traversal. -/
theorem extract_attribute_access_eq (m : PTree) (name : String) :
    extract_attribute_access m name =
      m.leaves.filterMap (fun p => scanStep (splitDots name).length name p.1 p.2) := by
  unfold extract_attribute_access
  simpa using foldl_collect_eq_filterMap
    (fun p => scanStep (splitDots name).length name p.1 p.2) m.leaves []

/-- C4: with bound name `mod.sub`, the access `mod.sub.fn(1)` yields the
suffix `fn` (the trailing call is dropped), `mod.sub.x[0]` yields `x`
(the trailing subscript is dropped), and `mod.sub.a.b` yields the single
compound suffix `a.b`, not two separate entries. -/
theorem C4_theorem :
    extract_attribute_access tFnCall "mod.sub" = ["fn"] ∧
    extract_attribute_access tGetItem "mod.sub" = ["x"] ∧
    extract_attribute_access tChain "mod.sub" = ["a.b"] := by decide

/-- C3 (amended): the scanner output lists one suffix per matching leaf
occurrence, in document (first-occurrence) order; repeated identical
accesses each contribute their own entry, duplicates included. -/
theorem C3_theorem : ∀ (m : PTree) (name : String),
    extract_attribute_access m name =
      m.leaves.filterMap (fun p => scanStep (splitDots name).length name p.1 p.2) :=
  fun m name => extract_attribute_access_eq m name

/-- C3 (counterexample): scanning a script with the same access
`functions.a()` on two separate lines returns the suffix `a` twice, so a
distinct suffix string can occur more than once in the returned list. -/
theorem C3_counterexample :
    extract_attribute_access tDup "functions" = ["a", "a"] ∧
    ¬ (extract_attribute_access tDup "functions").count "a" ≤ 1 := by decide

/-- C10: every suffix the scanner returns is a non-empty string, and an
occurrence of the bound name followed only by a call or a subscript, with
no attribute segment after the bound-name prefix, contributes no entry at
all. -/
theorem C10_theorem :
    (∀ (m : PTree) (name s : String), s ∈ extract_attribute_access m name → s ≠ "") ∧
    extract_attribute_access tCallOnly "mod.sub" = [] ∧
    extract_attribute_access tSubOnly "mod.sub" = [] := by
  refine ⟨?_, by decide, by decide⟩
  intro m name s hs
  rw [extract_attribute_access_eq] at hs
  obtain ⟨p, _, hstep⟩ := List.mem_filterMap.mp hs
  exact scanStep_ne_empty _ _ _ _ _ hstep

/-- C10 (witness): instantiation at the concrete tree of `mod.sub.fn(1)`
and the suffix `fn` the scanner returns for it. -/
theorem C10_witness :
    ("fn" ∈ extract_attribute_access tFnCall "mod.sub") ∧ "fn" ≠ "" :=
  ⟨by decide, C10_theorem.1 tFnCall "mod.sub" "fn" (by decide)⟩

/-- C9: the aliased script (import another_module as some_alias, then
some_alias.a) and the unaliased script (import another_module, then
another_module.a) produce the same mapping, keyed by the imported path. -/
theorem C9_theorem :
    extract_from_script envA tAliased [impAliased] baseA =
      extract_from_script envA tPlain [impPlain] baseA ∧
    extract_from_script envA tAliased [impAliased] baseA =
      some [("another_module.a", some "def a():\n    pass")] := by decide

/-- C5 (amended): the extractor returns the stripped source of the first
matching top-level function definition in document order; only when no
top-level function matches, the stripped source of the first matching
top-level class definition; and absent when no top-level definition of
either kind bears the name. Function definitions take precedence over
class definitions regardless of their position in the text. -/
theorem C5_theorem : ∀ (defs : List PyDef) (n : String),
    (∀ (l₁ : List PyDef) (d : PyDef) (l₂ : List PyDef),
        defs = l₁ ++ d :: l₂ → d.kind = DefKind.func → d.name = n →
        (∀ d' ∈ l₁, ¬(d'.kind = DefKind.func ∧ d'.name = n)) →
        extract_symbol defs n = some (pyStrip d.code)) ∧
    ((∀ d' ∈ defs, ¬(d'.kind = DefKind.func ∧ d'.name = n)) →
      ∀ (l₁ : List PyDef) (d : PyDef) (l₂ : List PyDef),
        defs = l₁ ++ d :: l₂ → d.kind = DefKind.cls → d.name = n →
        (∀ d' ∈ l₁, ¬(d'.kind = DefKind.cls ∧ d'.name = n)) →
        extract_symbol defs n = some (pyStrip d.code)) ∧
    ((∀ d' ∈ defs, d'.name ≠ n) → extract_symbol defs n = none) := by
  intro defs n
  refine ⟨?_, ?_, ?_⟩
  · intro l₁ d l₂ hsplit hkind hname hearlier
    subst hsplit
    unfold extract_symbol
    rw [List.filter_append]
    have hdf : isFunc d = true := (isFunc_iff d).mpr hkind
    have hfilter : List.filter isFunc (d :: l₂) = d :: List.filter isFunc l₂ := by
      simp [List.filter_cons, hdf]
    rw [hfilter, List.append_assoc, List.cons_append]
    have hnomatch : ∀ d' ∈ List.filter isFunc l₁, d'.name ≠ n := by
      intro d' hm
      have h2 := List.mem_filter.mp hm
      exact fun hn => hearlier d' h2.1 ⟨(isFunc_iff d').mp h2.2, hn⟩
    exact findSymbol_first _ _ d n hname hnomatch
  · intro hnofunc l₁ d l₂ hsplit hkind hname hearlier
    subst hsplit
    unfold extract_symbol
    have hff : ∀ d' ∈ List.filter isFunc (l₁ ++ d :: l₂), d'.name ≠ n := by
      intro d' hm
      have h2 := List.mem_filter.mp hm
      exact fun hn => hnofunc d' h2.1 ⟨(isFunc_iff d').mp h2.2, hn⟩
    rw [findSymbol_append_none _ _ n hff, List.filter_append]
    have hdc : isCls d = true := (isCls_iff d).mpr hkind
    have hfilter : List.filter isCls (d :: l₂) = d :: List.filter isCls l₂ := by
      simp [List.filter_cons, hdc]
    rw [hfilter]
    have hnomatch : ∀ d' ∈ List.filter isCls l₁, d'.name ≠ n := by
      intro d' hm
      have h2 := List.mem_filter.mp hm
      exact fun hn => hearlier d' h2.1 ⟨(isCls_iff d').mp h2.2, hn⟩
    exact findSymbol_first _ _ d n hname hnomatch
  · intro hnone
    unfold extract_symbol
    apply findSymbol_none
    intro d hm
    rcases List.mem_append.mp hm with h | h
    · exact hnone d (List.mem_filter.mp h).1
    · exact hnone d (List.mem_filter.mp h).1

/-- C5 (witness): in the module defining class `a` before function `a`,
the extractor returns the function source, the first match among the
function definitions. -/
theorem C5_witness : extract_symbol defs0 "a" = some "def a():\n    pass" :=
  (C5_theorem defs0 "a").1 [clsA] funcA [] rfl rfl rfl (by decide)

/-- C5 (counterexample): with a top-level class `a` textually before a
top-level function `a`, the first definition in the text is the class,
yet the code returns the function source: document order across the two
kinds is not respected. -/
theorem C5_counterexample :
    extract_symbol_spec defs0 "a" = some "class a:\n    pass" ∧
    extract_symbol defs0 "a" = some "def a():\n    pass" ∧
    extract_symbol defs0 "a" ≠ extract_symbol_spec defs0 "a" := by decide

/-- C7: origin resolution first tries the full dotted path (success gives
the origin with the module flag set), then on failure the path with its
last segment stripped (success gives that origin with the flag cleared),
and when even the parent lookup fails the resolution error propagates to
the caller. -/
theorem C7_theorem : ∀ (find : String → Option PyPath) (dp : String),
    (∀ p, find dp = some p → get_origin find dp = some (p, true)) ∧
    (∀ p, find dp = none → find (joinDots (splitDots dp).dropLast) = some p →
        get_origin find dp = some (p, false)) ∧
    (find dp = none → find (joinDots (splitDots dp).dropLast) = none →
        get_origin find dp = none) := by
  intro find dp
  refine ⟨?_, ?_, ?_⟩
  · intro p h
    unfold get_origin
    rw [h]
  · intro p h1 h2
    unfold get_origin
    rw [h1, h2]
  · intro h1 h2
    unfold get_origin
    rw [h1, h2]

/-- C7 (witness): the three branches at concrete resolution services: a
known module, a dotted path whose parent only is known, and a path whose
parent is unknown as well. -/
theorem C7_witness :
    get_origin findA "pkg.mod" = some (["", "lib", "pkg", "mod.py"], true) ∧
    get_origin findB "pkg.attr" = some (["", "lib", "pkg", "__init__.py"], false) ∧
    get_origin findNone "x.y" = none :=
  ⟨(C7_theorem findA "pkg.mod").1 _ (by decide),
   (C7_theorem findB "pkg.attr").2.1 _ (by decide) (by decide),
   (C7_theorem findNone "x.y").2.2 (by decide) (by decide)⟩

/-- C8: the membership filter is true exactly when one path is contained
in the other (equality included), and an import whose origin fails the
filter contributes an empty mapping, not an error. -/
theorem C8_theorem :
    (∀ base origin : PyPath,
      parent_or_child base origin = true ↔ (base <+: origin ∨ origin <+: base)) ∧
    (∀ (env : Env) (dp : String) (tree : PTree) (nm : String) (base origin : PyPath)
        (ismod : Bool),
      get_origin env.find dp = some (origin, ismod) →
      parent_or_child base origin = false →
      get_source_from_import env dp tree nm base = some []) := by
  constructor
  · intro base origin
    rw [parent_or_child_eq]
    simp [List.isPrefixOf_iff_prefix]
  · intro env dp tree nm base origin ismod h1 h2
    unfold get_source_from_import
    rw [h1]
    simp [h2]

/-- C8 (witness): a third-party origin under a system directory is
neither contained in nor contains the project base, so the import
contributes no entries and no error. -/
theorem C8_witness :
    get_source_from_import envN "numpy" tPlain "numpy" baseA = some [] :=
  C8_theorem.2 envN "numpy" tPlain "numpy" baseA numpyPath true (by decide) (by decide)

/-- Through the spec-modelled resolver, a dotted path whose segments all
name nested directories, the last of which holds no initializer file,
resolves to the path of that directory. -/
theorem resolve_segments_namespace :
    ∀ (segs : List String) (es sub : List FSEntry) (pre : PyPath),
      segs ≠ [] →
      resolveDirs es segs = some sub →
      findFile sub "__init__.py" = false →
      resolve_segments es pre segs = some (pre ++ segs) := by
  intro segs
  induction segs with
  | nil => intro es sub pre h _ _; cases h rfl
  | cons s rest ih =>
    intro es sub pre _ h2 h3
    cases rest with
    | nil =>
      cases hfd : findDir es s with
      | none => simp [resolveDirs, hfd] at h2
      | some sub2 =>
        simp [resolveDirs, hfd] at h2
        subst h2
        simp [resolve_segments, hfd, h3]
    | cons s2 rest2 =>
      cases hfd : findDir es s with
      | none => simp [resolveDirs, hfd] at h2
      | some sub1 =>
        simp [resolveDirs, hfd] at h2
        simp [resolve_segments, hfd, ih sub1 sub (pre ++ [s]) (by simp) h2 h3]

/-- C2: a dotted path naming a namespace package (every segment resolving
to a directory, the final directory holding no initializer file) resolves
without raising, directly as a module, and the origin is the directory
itself. -/
theorem C2_theorem : ∀ (es : List FSEntry) (pre : PyPath) (dotted : String)
    (sub : List FSEntry),
    splitDots dotted ≠ [] →
    resolveDirs es (splitDots dotted) = some sub →
    findFile sub "__init__.py" = false →
    get_origin (find_spec es pre) dotted = some (pre ++ splitDots dotted, true) := by
  intro es pre dotted sub h1 h2 h3
  have h := resolve_segments_namespace (splitDots dotted) es sub pre h1 h2 h3
  unfold get_origin find_spec
  rw [h]

/-- C2 (witness): the two test scenarios; in the first, the initializer
file is missing in the submodule directory `package/sub`, in the second it
is missing in `package` itself; both resolve to the directory. -/
theorem C2_witness :
    get_origin (find_spec fs1 tmpBase) "package.sub" =
      some (tmpBase ++ splitDots "package.sub", true) ∧
    get_origin (find_spec fs2 tmpBase) "package" =
      some (tmpBase ++ splitDots "package", true) :=
  ⟨C2_theorem fs1 tmpBase "package.sub" [.file "functions.py"] (by decide) rfl (by decide),
   C2_theorem fs2 tmpBase "package" [.file "functions.py"] (by decide) rfl (by decide)⟩

/-- C1 (amended): for an import resolved as a module, the result holds,
for every suffix found by the scanner, an entry keyed by the imported
dotted path extended with the whole suffix, whose value is the symbol
extractor applied to that same whole suffix string (not to its last
dotted segment). -/
theorem C1_theorem : ∀ (env : Env) (dp : String) (tree : PTree) (nm : String)
    (base origin : PyPath) (attr : String),
    get_origin env.find dp = some (origin, true) →
    parent_or_child base origin = true →
    attr ∈ extract_attribute_access tree nm →
    (get_source_from_import env dp tree nm base).bind
        (fun d => dlookup d (dp ++ "." ++ attr)) =
      some (extract_symbol (env.read origin) attr) := by
  intro env dp tree nm base origin attr h1 h2 h3
  unfold get_source_from_import
  rw [h1]
  simp only [h2, Bool.not_true, Bool.false_eq_true, if_false, if_true, Option.some_bind]
  exact dlookup_foldl_dinsert (fun a => dp ++ "." ++ a)
    (fun a => extract_symbol (env.read origin) a) (dotkey_inj dp)
    (extract_attribute_access tree nm) [] attr (Or.inr h3)

/-- C1 (witness): in the concrete environment, the compound suffix
`nested.attribute` produces the key `mod.nested.attribute`, valued by the
extractor applied to the whole suffix. -/
theorem C1_witness :
    (get_source_from_import envM "mod" tNested "mod" baseA).bind
        (fun d => dlookup d ("mod" ++ "." ++ "nested.attribute")) =
      some (extract_symbol (envM.read modPath) "nested.attribute") :=
  C1_theorem envM "mod" tNested "mod" baseA modPath "nested.attribute"
    (by decide) (by decide) (by decide)

/-- C1 (counterexample): for the script `mod.nested.attribute` with `mod`
a local module defining the top-level function `attribute`, the claimed
last-segment behavior would map the key to that function source, but the
code passes the whole suffix to the extractor and maps the key to an
absent value, so the two disagree. -/
theorem C1_counterexample :
    get_source_from_import_claimed envM "mod" tNested "mod" baseA =
      some [("mod.nested.attribute", some "def attribute():\n    pass")] ∧
    get_source_from_import envM "mod" tNested "mod" baseA =
      some [("mod.nested.attribute", none)] ∧
    get_source_from_import_claimed envM "mod" tNested "mod" baseA ≠
      get_source_from_import envM "mod" tNested "mod" baseA := by decide

/-- C6: when the symbol extractor finds no matching top-level definition
for a name included in the analysis, the operation does not fail: the
result still contains the corresponding dotted-path key, mapped to an
absent value, in the module branch and in the attribute branch alike. -/
theorem C6_theorem : ∀ (env : Env) (dp : String) (tree : PTree) (nm : String)
    (base origin : PyPath) (ismod : Bool) (attr : String),
    get_origin env.find dp = some (origin, ismod) →
    parent_or_child base origin = true →
    (if ismod then
        attr ∈ extract_attribute_access tree nm ∧
          extract_symbol (env.read origin) attr = none
      else extract_symbol (env.read origin) ((splitDots dp).getLastD "") = none) →
    (get_source_from_import env dp tree nm base).bind
        (fun d => dlookup d (if ismod then dp ++ "." ++ attr else dp)) =
      some none := by
  intro env dp tree nm base origin ismod attr h1 h2 h3
  cases ismod with
  | false =>
    simp only [Bool.false_eq_true, if_false] at h3 ⊢
    unfold get_source_from_import
    rw [h1]
    simp only [h2, Bool.not_true, Bool.false_eq_true, if_false, Option.some_bind]
    rw [h3]
    simp [dlookup]
  | true =>
    simp only [if_true] at h3 ⊢
    unfold get_source_from_import
    rw [h1]
    simp only [h2, Bool.not_true, Bool.false_eq_true, if_false, if_true, Option.some_bind]
    have h := dlookup_foldl_dinsert (fun a => dp ++ "." ++ a)
      (fun a => extract_symbol (env.read origin) a) (dotkey_inj dp)
      (extract_attribute_access tree nm) [] attr (Or.inr h3.1)
    rw [h]
    exact congrArg some h3.2

/-- C6 (witness): the scanned suffix `nested.attribute` names no
top-level definition of the local module, yet the key
`mod.nested.attribute` is present, mapped to an absent value. -/
theorem C6_witness :
    (get_source_from_import envM "mod" tNested "mod" baseA).bind
        (fun d => dlookup d ("mod" ++ "." ++ "nested.attribute")) = some none :=
  C6_theorem envM "mod" tNested "mod" baseA modPath true "nested.attribute"
    (by decide) (by decide) (by decide)
